import Mathlib

/-!
# Sari-sari store console program: validators, cart, order and payment

A shallow embedding of `Sahagun-class-diagram-implementation.cpp`.

Conventions of the embedding.

* A `std::string` is a Lean `String`; the functions that walk a string walk its
  list of characters.  Every character the program inspects (digits, signs, the
  dot, white space) is ASCII, so a position counted in characters equals the
  position counted in bytes on every accepted prefix.
* `int` is a 32-bit two's-complement integer.  Its values are carried in `Int`;
  an increment that would leave the range is signed overflow, which the embedding
  reports as `Outcome.undefined`.  The compiled program completes such a call with
  the wrapped value; the cart it then holds is given by `addProductWrapped` and
  counts among the reachable cart states.
* `double` arithmetic is a parameter (`DoubleArith`): the control flow of the
  program is embedded once, for whatever the machine's operations compute.
* Standard input is the list of the lines still to be read, each ended by a
  newline.  Every prompt loop of the program re-reads on a failed `getline` without
  leaving the loop, so a loop that reaches the end of the input never returns
  (`Outcome.hangs`).
* Standard output is a list of `Out` events, one per message; column widths, rules
  of dashes and line breaks are not modelled.
* A local variable that is read before it is assigned (`paidAmount`) holds an
  indeterminate value, which the embedding takes as a parameter (`uninit`).
-/

namespace SariSari

/-! ## Results of running a piece of the program -/

/-- Result of running a statement of the program to its end. -/
inductive Outcome (α : Type) where
  /-- Normal return. -/
  | returns (a : α)
  /-- The input is exhausted inside a prompt loop, which then repeats forever. -/
  | hangs
  /-- An exception leaves `main` uncaught and the process is terminated. -/
  | throws
  /-- Undefined behaviour (signed integer overflow). -/
  | undefined
  deriving DecidableEq, Repr

/-! ## `int` -/

/-- Smallest value of `int`. -/
def INT_MIN : Int := -2147483648

/-- Largest value of `int`. -/
def INT_MAX : Int := 2147483647

/-- The value of `n` after `n++` on an `int`; `none` when the increment overflows. -/
def intIncr (n : Int) : Option Int :=
  if n < INT_MAX then some (n + 1) else none

/-- The value that `n++` leaves in an `int` on the two's-complement machine: the
increment of `INT_MAX`, which the language leaves undefined, wraps to `INT_MIN`. -/
def intIncrWrap (n : Int) : Int :=
  if n < INT_MAX then n + 1 else INT_MIN

/-! ## Character classes of the C locale -/

/-- Characters for which `isspace` holds in the C locale. -/
def isSpaceC (c : Char) : Bool :=
  c == ' ' || c == '\t' || c == '\n' || c == '\x0b' || c == '\x0c' || c == '\r'

/-- Characters `0` to `9`. -/
def isDigitC (c : Char) : Bool :=
  decide ('0'.toNat ≤ c.toNat ∧ c.toNat ≤ '9'.toNat)

/-- Numeric value of a decimal digit. -/
def digitVal (c : Char) : Nat :=
  c.toNat - '0'.toNat

/-- Value of a run of decimal digits, most significant first. -/
def digitsVal (ds : List Char) : Nat :=
  ds.foldl (fun acc c => acc * 10 + digitVal c) 0

/-! ## `std::stoi` -/

/-- Sign accepted by `strtol` at the head of the subject sequence:
whether it is a minus, how many characters it takes, and what follows it. -/
def takeSign : List Char → Bool × Nat × List Char
  | '-' :: t => (true, 1, t)
  | '+' :: t => (false, 1, t)
  | s => (false, 0, s)

/-- Base-10 `strtol` without the range clamp: leading white space is skipped, an
optional sign and the longest run of digits are read.  Yields the mathematical
value and the number of characters consumed, or `none` when no digit is found. -/
def strtol10 (s : List Char) : Option (Int × Nat) :=
  let ws := s.takeWhile isSpaceC
  let afterWs := s.dropWhile isSpaceC
  let (neg, signLen, afterSign) := takeSign afterWs
  let ds := afterSign.takeWhile isDigitC
  if ds.isEmpty then none
  else
    let v : Int := digitsVal ds
    some (if neg then -v else v, ws.length + signLen + ds.length)

/-- What a call `stoi(input, &pos)` does. -/
inductive StoiResult where
  /-- Returns `value` and stores `pos`. -/
  | ok (value : Int) (pos : Nat)
  /-- Throws `std::invalid_argument`: no conversion could be performed. -/
  | invalidArgument
  /-- Throws `std::out_of_range`: the value does not fit in `int`. -/
  | outOfRange
  deriving DecidableEq, Repr

/-- Embedding of `std::stoi(input, &pos)` with the default base 10. -/
def stoi (input : String) : StoiResult :=
  match strtol10 input.data with
  | none => .invalidArgument
  | some (v, pos) =>
    if v < INT_MIN ∨ INT_MAX < v then .outOfRange else .ok v pos

/-! ## Validation functions -/

/-- Embedding of `isValidInteger(input, output)`: the returned pair is the `bool`
result and the content of the reference parameter `output` afterwards.  Both
exceptions of `stoi` are caught; `output` is assigned as soon as `stoi` returns. -/
def isValidInteger (input : String) (output : Int) : Bool × Int :=
  match stoi input with
  | .ok v pos => if pos = input.length then (true, v) else (false, v)
  | .invalidArgument => (false, output)
  | .outOfRange => (false, output)

/-- Embedding of `isValidMenuNumber(input, output, min, max)`. -/
def isValidMenuNumber (input : String) (output min max : Int) : Bool × Int :=
  if input.data.contains ' ' then (false, output)
  else
    match isValidInteger input output with
    | (true, v) => (decide (min ≤ v ∧ v ≤ max), v)
    | (false, v) => (false, v)

/-- The character class `\d`. -/
def reDigit : RegularExpression Char :=
  .char '0' + .char '1' + .char '2' + .char '3' + .char '4' +
  .char '5' + .char '6' + .char '7' + .char '8' + .char '9'

/-- The quantifier `?`. -/
def reOpt (r : RegularExpression Char) : RegularExpression Char := 1 + r

/-- The quantifier `+`. -/
def rePlus (r : RegularExpression Char) : RegularExpression Char := r * .star r

/-- The pattern `^-?\d*\.?\d+$`.  Under `regex_match` the whole input has to be
matched, so the two anchors, first and last in the pattern, hold trivially. -/
def realNumberRegex : RegularExpression Char :=
  reOpt (.char '-') * (.star reDigit * (reOpt (.char '.') * rePlus reDigit))

/-- Embedding of `isValidPayment(input)`. -/
def isValidPayment (input : String) : Bool :=
  realNumberRegex.rmatch input.data

/-- Embedding of `isValidChoice(input)`. -/
def isValidChoice (input : String) : Bool :=
  input == "y" || input == "Y" || input == "n" || input == "N"

/-! ## Shapes of text used to state what the validators accept -/

/-- Shape `sign digits`: an optional sign followed by one or more decimal digits and
nothing else. -/
def signedDigitsShape (cs : List Char) : Bool :=
  match cs with
  | '-' :: t => !t.isEmpty && t.all isDigitC
  | '+' :: t => !t.isEmpty && t.all isDigitC
  | t => !t.isEmpty && t.all isDigitC

/-- Text that `isValidInteger` converts to `n`: leading white space, an optional
sign, one or more digits, nothing after them, and a value within `int`. -/
def IntegerText (cs : List Char) (n : Int) : Prop :=
  ∃ ws sign ds : List Char,
    cs = ws ++ sign ++ ds ∧ (∀ c ∈ ws, isSpaceC c = true) ∧
    (sign = [] ∨ sign = ['+'] ∨ sign = ['-']) ∧
    ds ≠ [] ∧ (∀ c ∈ ds, isDigitC c = true) ∧
    n = (if sign = ['-'] then -(digitsVal ds : Int) else (digitsVal ds : Int)) ∧
    INT_MIN ≤ n ∧ n ≤ INT_MAX

/-- Text of the form the payment validator is specified to accept: an optional
leading `-`, then either one or more digits, or zero or more digits, a dot and one
or more digits; nothing else. -/
def PaymentText (cs : List Char) : Prop :=
  ∃ sign body : List Char,
    cs = sign ++ body ∧ (sign = [] ∨ sign = ['-']) ∧
    ((body ≠ [] ∧ ∀ c ∈ body, isDigitC c = true) ∨
      ∃ intPart fracPart : List Char,
        body = intPart ++ '.' :: fracPart ∧ (∀ c ∈ intPart, isDigitC c = true) ∧
        fracPart ≠ [] ∧ ∀ c ∈ fracPart, isDigitC c = true)

/-! ## `double` -/

/-- The operations on `double` that the program uses.  `stod` is `std::stod`; it
yields `none` when the call throws (`std::out_of_range` for a value that no
`double` can hold, `std::invalid_argument` when nothing can be converted). -/
structure DoubleArith (D : Type) where
  /-- The value of the literal in `double total = 0`. -/
  zero : D
  /-- Conversion of an `int` operand to `double`. -/
  ofInt : Int → D
  /-- Addition. -/
  add : D → D → D
  /-- Subtraction. -/
  sub : D → D → D
  /-- Multiplication. -/
  mul : D → D → D
  /-- The comparison `a < b`. -/
  lt : D → D → Bool
  /-- The call `stod(input)`. -/
  stod : String → Option D

/-- Value of text of the form `-?\d*\.?\d+`, as an exact rational. -/
def decimalValue (cs : List Char) : ℚ :=
  let neg := cs.head? == some '-'
  let body := if neg then cs.drop 1 else cs
  let intPart := body.takeWhile isDigitC
  let fracPart := (body.dropWhile isDigitC).drop 1
  let v : ℚ := (digitsVal intPart : ℚ) + (digitsVal fracPart : ℚ) / (10 : ℚ) ^ fracPart.length
  if neg then -v else v

/-- Exact arithmetic: the values are rationals and no operation rounds.  It agrees
with IEEE-754 binary64 wherever every value involved is exactly representable,
which includes all integers of magnitude below `2 ^ 53`.  `stod` is given on the
text that `isValidPayment` accepts (the only text the program passes to it) and
throws for a magnitude of `2 ^ 1024` or more, which exceeds every finite `double`;
underflow is not modelled. -/
def exactArith : DoubleArith ℚ where
  zero := 0
  ofInt := fun n => (n : ℚ)
  add := fun a b => a + b
  sub := fun a b => a - b
  mul := fun a b => a * b
  lt := fun a b => decide (a < b)
  stod := fun input =>
    if isValidPayment input then
      let v := decimalValue input.data
      if (2 : ℚ) ^ 1024 ≤ |v| then none else some v
    else none

/-! ## Data -/

/-- The class `Product`. -/
structure Product (D : Type) where
  /-- Product identifier. -/
  id : Int
  /-- Product name. -/
  name : String
  /-- Unit price. -/
  price : D
  deriving DecidableEq, Repr

/-- One element of the cart or of an order, `pair<Product, int>`: the product and
its quantity. -/
abbrev CartLine (D : Type) := Product D × Int

/-- What the program writes to standard output, one event per message. -/
inductive Out (D : Type) where
  /-- A fixed piece of text. -/
  | msg (text : String)
  /-- A table row of a cart or order line: id, name, price, quantity. -/
  | row (id : Int) (name : String) (price : D) (qty : Int)
  /-- A table row of the catalogue: id, name, price. -/
  | productRow (id : Int) (name : String) (price : D)
  /-- The line `Order ID: n` of `processOrder`. -/
  | orderId (n : Int)
  /-- The line `Order n:` of `viewOrders`. -/
  | orderNum (n : Int)
  /-- The line `Total Amount: t`. -/
  | total (t : D)
  /-- The line `Insufficient amount. Please enter at least amount`. -/
  | insufficient (amount : D)
  /-- The line `Your change is: c`. -/
  | change (c : D)
  deriving DecidableEq, Repr

/-- The static state of the class `Order`: the member `orderHistory` and the
function-local static `orderId` of `processOrder`. -/
structure OrderState (D : Type) where
  /-- Past orders, oldest first. -/
  orderHistory : List (List (CartLine D))
  /-- Identifier that the next order will print. -/
  orderId : Int
  deriving DecidableEq, Repr

/-- State of `Order` at program start. -/
def OrderState.initial (D : Type) : OrderState D := ⟨[], 1⟩

/-! ## `Payment` -/

/-- The `do ... while (paidAmount < amount)` loop of `Payment::processPayment`,
entered with the current content of `paidAmount`, the lines still to be read and
the output so far.  A line that fails `isValidPayment` takes the `continue`, which
jumps to the loop condition and so tests `paidAmount` as it stands.  At the end of
the input `getline` fails, the line read is empty, and the same `continue` is taken
on every further pass. -/
def processPaymentLoop {D : Type} (A : DoubleArith D) (amount : D) :
    D → List String → List (Out D) → Outcome (List (Out D) × List String)
  | paidAmount, [], out =>
    if A.lt paidAmount amount then .hangs
    else
      .returns (out ++ [.msg "Enter payment amount: ₱",
        .msg "Invalid input. Please enter a valid amount.",
        .msg "Payment successful!", .change (A.sub paidAmount amount)], [])
  | paidAmount, input :: rest, out =>
    if !isValidPayment input then
      if A.lt paidAmount amount then
        processPaymentLoop A amount paidAmount rest
          (out ++ [.msg "Enter payment amount: ₱",
            .msg "Invalid input. Please enter a valid amount."])
      else
        .returns (out ++ [.msg "Enter payment amount: ₱",
          .msg "Invalid input. Please enter a valid amount.",
          .msg "Payment successful!", .change (A.sub paidAmount amount)], rest)
    else
      match A.stod input with
      | none => .throws
      | some paid =>
        if A.lt paid amount then
          processPaymentLoop A amount paid rest
            (out ++ [.msg "Enter payment amount: ₱", .insufficient amount])
        else
          .returns (out ++ [.msg "Enter payment amount: ₱",
            .msg "Payment successful!", .change (A.sub paid amount)], rest)

/-- Embedding of `Payment::processPayment(amount)`.  The local `paidAmount` is
declared without an initialiser; `uninit` is the indeterminate value it holds on
entry.  The result is the output written and the input left unread. -/
def processPayment {D : Type} (A : DoubleArith D) (amount uninit : D) (input : List String) :
    Outcome (List (Out D) × List String) :=
  processPaymentLoop A amount uninit input []

/-! ## `Order` -/

/-- The loop over the lines of an order that `processOrder` and `viewOrders` both
contain: each line is printed and `price * quantity` is added to `total`. -/
def itemsLoop {D : Type} (A : DoubleArith D) :
    List (CartLine D) → D → List (Out D) → D × List (Out D)
  | [], total, out => (total, out)
  | item :: rest, total, out =>
    itemsLoop A rest (A.add total (A.mul item.1.price (A.ofInt item.2)))
      (out ++ [.row item.1.id item.1.name item.1.price item.2])

/-- Embedding of `Order::processOrder(items)`: the new state of `Order`, the input
left unread and the output written. -/
def processOrder {D : Type} (A : DoubleArith D) (uninit : D) (st : OrderState D)
    (items : List (CartLine D)) (input : List String) :
    Outcome (OrderState D × List String × List (Out D)) :=
  if items.isEmpty then .returns (st, input, [.msg "No items to checkout."])
  else
    match intIncr st.orderId with
    | none => .undefined
    | some nextId =>
      let r := itemsLoop A items A.zero
        [.orderId st.orderId, .msg "Order Details:", .msg "ID   | Name             | Price   | Qty"]
      match processPayment A r.1 uninit input with
      | .returns (payOut, rest) =>
        .returns (⟨st.orderHistory ++ [items], nextId⟩, rest,
          r.2 ++ [.total r.1] ++ payOut ++
            [.msg "You have successfully checked out the products!"])
      | .hangs => .hangs
      | .throws => .throws
      | .undefined => .undefined

/-- The `for` loop of `Order::viewOrders` over the order history. -/
def viewOrdersLoop {D : Type} (A : DoubleArith D) :
    Int → List (List (CartLine D)) → List (Out D) → Outcome (List (Out D))
  | _, [], out => .returns out
  | orderNum, order :: rest, out =>
    match intIncr orderNum with
    | none => .undefined
    | some nextNum =>
      let r := itemsLoop A order A.zero
        (out ++ [.orderNum orderNum, .msg "Order Details:",
          .msg "ID   | Name             | Price   | Qty"])
      viewOrdersLoop A nextNum rest (r.2 ++ [.total r.1])

/-- Embedding of `Order::viewOrders()`. -/
def viewOrders {D : Type} (A : DoubleArith D) (st : OrderState D) : Outcome (List (Out D)) :=
  if st.orderHistory.isEmpty then .returns [.msg "No previous orders found."]
  else viewOrdersLoop A 1 st.orderHistory []

/-! ## `ShoppingCart` -/

/-- The member `cart` after `ShoppingCart::addProduct(product)`: the first line with
the product's id has its quantity incremented; when the loop finds none, a line
with quantity 1 is pushed at the back. -/
def addProductLines {D : Type} (product : Product D) : List (CartLine D) → Outcome (List (CartLine D))
  | [] => .returns [(product, 1)]
  | item :: rest =>
    if item.1.id = product.id then
      match intIncr item.2 with
      | none => .undefined
      | some q => .returns ((item.1, q) :: rest)
    else
      match addProductLines product rest with
      | .returns rest' => .returns (item :: rest')
      | .hangs => .hangs
      | .throws => .throws
      | .undefined => .undefined

/-- Embedding of `ShoppingCart::addProduct(product)`: the new cart and the output. -/
def addProduct {D : Type} (cart : List (CartLine D)) (product : Product D) :
    Outcome (List (CartLine D) × List (Out D)) :=
  match addProductLines product cart with
  | .returns cart' => .returns (cart', [.msg "Product added successfully!"])
  | .hangs => .hangs
  | .throws => .throws
  | .undefined => .undefined

/-- The member `cart` after `ShoppingCart::addProduct(product)` as the compiled
program leaves it: the same loop as `addProductLines`, with the increment taken on
the two's-complement machine, so that a quantity of `INT_MAX` wraps to `INT_MIN`
where the language leaves the call undefined. -/
def addProductWrapped {D : Type} (product : Product D) : List (CartLine D) → List (CartLine D)
  | [] => [(product, 1)]
  | item :: rest =>
    if item.1.id = product.id then (item.1, intIncrWrap item.2) :: rest
    else item :: addProductWrapped product rest

/-- Embedding of `ShoppingCart::clearCart()`. -/
def clearCart {D : Type} (_cart : List (CartLine D)) : List (CartLine D) := []

/-- The `do ... while (!isValidChoice(checkoutChoice))` loop of `viewCart`: the
accepted answer, the input left unread and the output. -/
def askCheckout {D : Type} : List String → List (Out D) → Outcome (String × List String × List (Out D))
  | [], _ => .hangs
  | checkoutChoice :: rest, out =>
    if !isValidChoice checkoutChoice then
      askCheckout rest (out ++ [.msg "Do you want to check out all the products? (Y/N): ",
        .msg "Invalid input. Please enter 'Y' or 'N' only."])
    else
      .returns (checkoutChoice, rest,
        out ++ [.msg "Do you want to check out all the products? (Y/N): "])

/-- Embedding of `ShoppingCart::viewCart()`: the new cart, the new state of `Order`,
the input left unread and the output. -/
def viewCart {D : Type} (A : DoubleArith D) (uninit : D) (st : OrderState D)
    (cart : List (CartLine D)) (input : List String) :
    Outcome (List (CartLine D) × OrderState D × List String × List (Out D)) :=
  if cart.isEmpty then .returns (cart, st, input, [.msg "Your shopping cart is empty."])
  else
    match askCheckout input
        ((Out.msg "Shopping Cart:" :: Out.msg "ID   | Name             | Price   | Qty" ::
          cart.map fun item => Out.row item.1.id item.1.name item.1.price item.2)) with
    | .returns (checkoutChoice, rest, out) =>
      if checkoutChoice == "Y" || checkoutChoice == "y" then
        match processOrder A uninit st cart rest with
        | .returns (st', rest', orderOut) =>
          .returns (clearCart cart, st', rest', out ++ orderOut)
        | .hangs => .hangs
        | .throws => .throws
        | .undefined => .undefined
      else .returns (cart, st, rest, out)
    | .hangs => .hangs
    | .throws => .throws
    | .undefined => .undefined

/-! ## `main` -/

/-- Embedding of `displayProducts(products)`. -/
def displayProducts {D : Type} (products : List (Product D)) : List (Out D) :=
  Out.msg "Available Products:" :: Out.msg "ID   | Name             | Price" ::
    products.map fun product => Out.productRow product.id product.name product.price

/-- The catalogue that `main` builds; the prices are the literals `24.0`, `57.0`,
`38.0`, `32.0` and `51.0`. -/
def products {D : Type} (A : DoubleArith D) : List (Product D) :=
  [⟨1, "Kopiko Lucky Day", A.ofInt 24⟩, ⟨2, "Nescafé Black", A.ofInt 57⟩,
   ⟨3, "Minute Maid", A.ofInt 38⟩, ⟨4, "C2 Apple", A.ofInt 32⟩,
   ⟨5, "Pocari Sweat", A.ofInt 51⟩]

/-- The loops of menu option 1.  With `askMore = false` the next line answers the
product-id prompt (the loop `while (!found)`); with `askMore = true` it answers
`Do you want to add another product?`.  The reference parameter `productId` is
read only after `isValidInteger` has assigned it, so its prior content is not
carried. -/
def addProductsLoop {D : Type} (catalogue : List (Product D)) :
    Bool → List (CartLine D) → List String → List (Out D) →
      Outcome (List (CartLine D) × List String × List (Out D))
  | _, _, [], _ => .hangs
  | false, cart, productIdInput :: rest, out =>
    match isValidInteger productIdInput 0 with
    | (true, productId) =>
      match catalogue.find? (fun product => product.id == productId) with
      | some product =>
        match addProduct cart product with
        | .returns (cart', addOut) =>
          addProductsLoop catalogue true cart' rest
            (out ++ [.msg "Enter the ID of the product you want to add: "] ++ addOut)
        | .hangs => .hangs
        | .throws => .throws
        | .undefined => .undefined
      | none =>
        addProductsLoop catalogue false cart rest
          (out ++ [.msg "Enter the ID of the product you want to add: ",
            .msg "Invalid product ID. Please enter a valid one."])
    | (false, _) =>
      addProductsLoop catalogue false cart rest
        (out ++ [.msg "Enter the ID of the product you want to add: ",
          .msg "Invalid input. Please enter a numeric product ID."])
  | true, cart, addMoreInput :: rest, out =>
    if !isValidChoice addMoreInput then
      addProductsLoop catalogue true cart rest
        (out ++ [.msg "Do you want to add another product? (Y/N): ",
          .msg "Invalid input. Please enter 'Y' or 'N' only."])
    else if addMoreInput == "Y" || addMoreInput == "y" then
      addProductsLoop catalogue false cart rest
        (out ++ [.msg "Do you want to add another product? (Y/N): "])
    else .returns (cart, rest, out ++ [.msg "Do you want to add another product? (Y/N): "])

/-- The state that `main` carries round its menu loop: the cart and the statics of
`Order`. -/
structure Session (D : Type) where
  /-- The local `cart` of `main`. -/
  cart : List (CartLine D)
  /-- The static state of `Order`. -/
  orders : OrderState D
  deriving DecidableEq, Repr

/-- The text of the main menu. -/
def menuText {D : Type} : List (Out D) :=
  [.msg " --- DANIBOY'S ONLINE SARI-SARI STORE --- ", .msg "Menu:", .msg "1. View Products",
   .msg "2. View Shopping Cart", .msg "3. View Orders", .msg "4. Exit",
   .msg "Enter your choice: "]

/-- The body of the `do` loop of `main` after `getline(cin, choice)` has read
`choice`: the `if (isValidMenuNumber(choice, option, 1, 4))` with its `switch`.
`uninit n` is the indeterminate value that `paidAmount` holds in the payment that
follows `n` completed orders.  The local `option` is read only after
`isValidMenuNumber` has assigned it, so its prior content is not carried. -/
def menuBody {D : Type} (A : DoubleArith D) (uninit : Nat → D) (s : Session D) (choice : String)
    (rest : List String) : Outcome (Session D × List String × List (Out D)) :=
  match isValidMenuNumber choice 0 1 4 with
  | (true, option) =>
    if option = 1 then
      match addProductsLoop (products A) false s.cart rest (displayProducts (products A)) with
      | .returns (cart', rest', out) => .returns (⟨cart', s.orders⟩, rest', out)
      | .hangs => .hangs
      | .throws => .throws
      | .undefined => .undefined
    else if option = 2 then
      match viewCart A (uninit s.orders.orderHistory.length) s.orders s.cart rest with
      | .returns (cart', orders', rest', out) => .returns (⟨cart', orders'⟩, rest', out)
      | .hangs => .hangs
      | .throws => .throws
      | .undefined => .undefined
    else if option = 3 then
      match viewOrders A s.orders with
      | .returns out => .returns (s, rest, out)
      | .hangs => .hangs
      | .throws => .throws
      | .undefined => .undefined
    else if option = 4 then
      .returns (s, rest, [.msg "Thank you for shopping with us!"])
    else .returns (s, rest, [])
  | (false, _) =>
    .returns (s, rest, [.msg "Invalid choice. Please enter a number between 1 and 4."])

/-- The `do ... while (choice != "4")` loop of `main`, for at most `passes` passes.
Every pass reads a line, so a run on `input` never needs more than `input.length`
passes followed by the pass that finds the input exhausted; that last pass repeats
the previous one for ever. -/
def mainLoop {D : Type} (A : DoubleArith D) (uninit : Nat → D) :
    Nat → Session D → List String → List (Out D) → Outcome (Session D × List String × List (Out D))
  | 0, _, _, _ => .hangs
  | _ + 1, _, [], _ => .hangs
  | passes + 1, s, choice :: rest, out =>
    match menuBody A uninit s choice rest with
    | .returns (s', rest', bodyOut) =>
      if choice != "4" then mainLoop A uninit passes s' rest' (out ++ menuText ++ bodyOut)
      else .returns (s', rest', out ++ menuText ++ bodyOut)
    | .hangs => .hangs
    | .throws => .throws
    | .undefined => .undefined

/-- Embedding of `main()`: the final session, the input left unread and the output,
when `main` returns (its return value is always 0). -/
def main {D : Type} (A : DoubleArith D) (uninit : Nat → D) (input : List String) :
    Outcome (Session D × List String × List (Out D)) :=
  mainLoop A uninit (input.length + 1) ⟨[], OrderState.initial D⟩ input []

/-! ## Cart states -/

/-- Invariant of the cart: no two lines carry the same product id and every
quantity is at least 1. -/
def CartInv {D : Type} (cart : List (CartLine D)) : Prop :=
  (cart.map fun item => item.1.id).Nodup ∧ ∀ item ∈ cart, 1 ≤ item.2

/-- Cart states that the public operations of `ShoppingCart` produce from the empty
cart, by any sequence of calls: `addProduct` of any product, `viewCart` on any input
and in any state of `Order` (whether the check-out is confirmed or declined), and
`clearCart`.  The flag tells whether some `addProduct` of the sequence incremented a
quantity of `INT_MAX`; that call overflows and the program goes on with the wrapped
quantity. -/
inductive CartReachable {D : Type} (A : DoubleArith D) : Bool → List (CartLine D) → Prop where
  /-- A new `ShoppingCart` is empty. -/
  | empty : CartReachable A false []
  /-- A call of `addProduct` whose increment stays within `int`, or that appends. -/
  | addProduct {overflowed : Bool} {cart cart' : List (CartLine D)} {out : List (Out D)}
      (product : Product D) :
      CartReachable A overflowed cart → addProduct cart product = .returns (cart', out) →
      CartReachable A overflowed cart'
  /-- A call of `addProduct` whose increment overflows. -/
  | addProductOverflow {overflowed : Bool} {cart : List (CartLine D)} (product : Product D) :
      CartReachable A overflowed cart → addProduct cart product = .undefined →
      CartReachable A true (addProductWrapped product cart)
  /-- A call of `viewCart` that returns. -/
  | viewCart {overflowed : Bool} {cart cart' : List (CartLine D)} {st st' : OrderState D}
      {rest : List String} {out : List (Out D)} (uninit : D) (input : List String) :
      CartReachable A overflowed cart →
      viewCart A uninit st cart input = .returns (cart', st', rest, out) →
      CartReachable A overflowed cart'
  /-- A call of `clearCart`. -/
  | clearCart {overflowed : Bool} {cart : List (CartLine D)} :
      CartReachable A overflowed cart → CartReachable A overflowed (clearCart cart)

/-- Kopiko Lucky Day, id 1, at 24. -/
def kopiko : Product ℚ := ⟨1, "Kopiko Lucky Day", 24⟩

/-- Nescafé Black, id 2, at 57. -/
def nescafe : Product ℚ := ⟨2, "Nescafé Black", 57⟩

/-! ## Totals and receipts, as the specification words them -/

/-- Amounts of the lines: unit price times quantity, line by line. -/
def lineAmounts {D : Type} (A : DoubleArith D) (items : List (CartLine D)) : List D :=
  items.map fun item => A.mul item.1.price (A.ofInt item.2)

/-- Sum over the lines of unit price times quantity, accumulated from 0 in line
order. -/
def sumOfLines {D : Type} (A : DoubleArith D) (items : List (CartLine D)) : D :=
  (lineAmounts A items).foldl A.add A.zero

/-- Table rows of a list of lines. -/
def rowsOf {D : Type} (items : List (CartLine D)) : List (Out D) :=
  items.map fun item => Out.row item.1.id item.1.name item.1.price item.2

/-- A payment line that the loop of `processPayment` turns down, staying in the loop
with a tendered amount below the amount due: it fails `isValidPayment`, or it parses
to a value less than the amount due. -/
def Rejected {D : Type} (A : DoubleArith D) (amount : D) (line : String) : Prop :=
  isValidPayment line = false ∨
    (isValidPayment line = true ∧ ∃ v, A.stod line = some v ∧ A.lt v amount = true)

/-- The digit 1 followed by 309 zeros: the decimal numeral of `10 ^ 309`, which is
larger than every finite `double`. -/
def hugeAmount : String := String.mk ('1' :: List.replicate 309 '0')

theorem isDigitC_not_space {c : Char} (h : isDigitC c = true) : isSpaceC c = false := by
  simp only [isDigitC, decide_eq_true_eq] at h
  simp only [isSpaceC, Bool.or_eq_false_iff, beq_eq_false_iff_ne, ne_eq]
  refine ⟨⟨⟨⟨⟨?_, ?_⟩, ?_⟩, ?_⟩, ?_⟩, ?_⟩ <;> (rintro rfl; revert h; decide)

theorem isDigitC_ne_minus {c : Char} (h : isDigitC c = true) : c ≠ '-' := by
  rintro rfl; revert h; decide

theorem isDigitC_ne_plus {c : Char} (h : isDigitC c = true) : c ≠ '+' := by
  rintro rfl; revert h; decide

theorem takeWhile_all_append {p : Char → Bool} (a b : List Char)
    (ha : ∀ c ∈ a, p c = true) (hb : ∀ c, b.head? = some c → p c = false) :
    (a ++ b).takeWhile p = a ∧ (a ++ b).dropWhile p = b := by
  induction a with
  | nil =>
    cases b with
    | nil => simp
    | cons c t => simp [List.takeWhile, List.dropWhile, hb c rfl]
  | cons x xs ih =>
    have hx := ha x (List.mem_cons_self _ _)
    have := ih (fun c hc => ha c (List.mem_cons_of_mem _ hc))
    simp [List.takeWhile, List.dropWhile, hx, this]

theorem takeSign_spec (s : List Char) :
    ∃ sign : List Char, s = sign ++ (takeSign s).2.2 ∧ sign.length = (takeSign s).2.1 ∧
      ((sign = [] ∧ (takeSign s).1 = false) ∨ (sign = ['+'] ∧ (takeSign s).1 = false) ∨
        (sign = ['-'] ∧ (takeSign s).1 = true)) := by
  unfold takeSign
  split
  · exact ⟨['-'], by simp⟩
  · exact ⟨['+'], by simp⟩
  · exact ⟨[], by simp⟩

theorem takeSign_digits (ds : List Char) (h : ∀ c, ds.head? = some c → isDigitC c = true) :
    takeSign ds = (false, 0, ds) := by
  unfold takeSign
  split
  · exact absurd rfl (isDigitC_ne_minus (h '-' rfl))
  · exact absurd rfl (isDigitC_ne_plus (h '+' rfl))
  · rfl

theorem strtol10_some {s : List Char} {v : Int} {pos : Nat} (h : strtol10 s = some (v, pos)) :
    ∃ ws sign ds rest : List Char,
      s = ws ++ sign ++ ds ++ rest ∧ (∀ c ∈ ws, isSpaceC c = true) ∧
      (sign = [] ∨ sign = ['+'] ∨ sign = ['-']) ∧ ds ≠ [] ∧ (∀ c ∈ ds, isDigitC c = true) ∧
      v = (if sign = ['-'] then -(digitsVal ds : Int) else (digitsVal ds : Int)) ∧
      pos = ws.length + sign.length + ds.length := by
  unfold strtol10 at h
  obtain ⟨sign, hs, hlen, hsign⟩ := takeSign_spec (s.dropWhile isSpaceC)
  simp only at h
  split at h
  · exact absurd h (by simp)
  · rename_i hne
    simp only [Option.some.injEq, Prod.mk.injEq] at h
    refine ⟨s.takeWhile isSpaceC, sign, (takeSign (s.dropWhile isSpaceC)).2.2.takeWhile isDigitC,
      (takeSign (s.dropWhile isSpaceC)).2.2.dropWhile isDigitC, ?_, ?_, ?_, ?_, ?_, ?_, ?_⟩
    · rw [List.append_assoc, List.append_assoc, List.takeWhile_append_dropWhile, ← hs,
        List.takeWhile_append_dropWhile]
    · intro c hc; exact (List.mem_takeWhile_imp hc)
    · rcases hsign with h1 | h1 | h1 <;> simp [h1.1]
    · intro h0; exact hne (by simp [h0])
    · intro c hc; exact (List.mem_takeWhile_imp hc)
    · rw [← h.1]
      rcases hsign with h1 | h1 | h1 <;> simp [h1.1, h1.2]
    · rw [← h.2, hlen]

theorem strtol10_append (ws sign ds rest : List Char) (hws : ∀ c ∈ ws, isSpaceC c = true)
    (hsign : sign = [] ∨ sign = ['+'] ∨ sign = ['-']) (hds : ds ≠ [])
    (hd : ∀ c ∈ ds, isDigitC c = true) (hrest : ∀ c, rest.head? = some c → isDigitC c = false) :
    strtol10 (ws ++ sign ++ ds ++ rest) =
      some (if sign = ['-'] then -(digitsVal ds : Int) else (digitsVal ds : Int),
        ws.length + sign.length + ds.length) := by
  obtain ⟨d, dt, rfl⟩ := List.exists_cons_of_ne_nil hds
  have hdd : isDigitC d = true := hd d (List.mem_cons_self _ _)
  have hsp : ∀ c, (sign ++ (d :: dt) ++ rest).head? = some c → isSpaceC c = false := by
    intro c hc
    rcases hsign with rfl | rfl | rfl
    · simp at hc; subst hc; exact isDigitC_not_space hdd
    · simp at hc; subst hc; decide
    · simp at hc; subst hc; decide
  have h1 := takeWhile_all_append ws (sign ++ (d :: dt) ++ rest) hws hsp
  have h2 := takeWhile_all_append (d :: dt) rest hd hrest
  have hsg : takeSign (sign ++ (d :: dt) ++ rest) =
      (decide (sign = ['-']), sign.length, (d :: dt) ++ rest) := by
    rcases hsign with rfl | rfl | rfl
    · simpa using takeSign_digits ((d :: dt) ++ rest) (by intro c hc; simp at hc; subst hc; exact hdd)
    · simp [takeSign]
    · simp [takeSign]
  unfold strtol10
  rw [show ws ++ sign ++ (d :: dt) ++ rest = ws ++ (sign ++ (d :: dt) ++ rest) by simp]
  rw [h1.1, h1.2]
  dsimp only
  rw [hsg]
  simp only [h2.1]
  simp

/-! ## Lemmas on the payment pattern -/

theorem isDigitC_iff (c : Char) :
    isDigitC c = true ↔ c = '0' ∨ c = '1' ∨ c = '2' ∨ c = '3' ∨ c = '4' ∨
      c = '5' ∨ c = '6' ∨ c = '7' ∨ c = '8' ∨ c = '9' := by
  constructor
  · intro h
    simp only [isDigitC, decide_eq_true_eq] at h
    have h1 : 48 ≤ c.toNat := h.1
    have h2 : c.toNat ≤ 57 := h.2
    have hc := Char.ofNat_toNat c
    generalize c.toNat = n at h1 h2 hc
    interval_cases n <;> subst hc <;> decide
  · rintro (rfl | rfl | rfl | rfl | rfl | rfl | rfl | rfl | rfl | rfl) <;> decide

theorem mem_char (a : Char) (x : List Char) :
    x ∈ (RegularExpression.char a).matches' ↔ x = [a] := by
  rw [RegularExpression.matches'_char]; rfl

theorem mem_reDigit (x : List Char) :
    x ∈ reDigit.matches' ↔ ∃ c, x = [c] ∧ isDigitC c = true := by
  simp only [reDigit, RegularExpression.matches'_add, Language.mem_add, mem_char, isDigitC_iff]
  constructor
  · intro h
    rcases h with ((((((((h | h) | h) | h) | h) | h) | h) | h) | h) | h <;>
      exact ⟨_, h, by simp⟩
  · rintro ⟨c, rfl, hc⟩
    rcases hc with rfl | rfl | rfl | rfl | rfl | rfl | rfl | rfl | rfl | rfl <;> simp

theorem mem_star_reDigit (x : List Char) :
    x ∈ (RegularExpression.star reDigit).matches' ↔ ∀ c ∈ x, isDigitC c = true := by
  rw [RegularExpression.matches'_star, Language.mem_kstar]
  constructor
  · rintro ⟨L, rfl, hL⟩ c hc
    obtain ⟨y, hy, hcy⟩ := List.mem_flatten.mp hc
    obtain ⟨d, rfl, hd⟩ := (mem_reDigit y).mp (hL y hy)
    simp only [List.mem_singleton] at hcy
    exact hcy ▸ hd
  · intro h
    refine ⟨x.map fun c => [c], ?_, ?_⟩
    · clear h
      induction x with
      | nil => rfl
      | cons a t ih => simp [List.flatten, ← ih]
    · intro y hy
      obtain ⟨c, hc, rfl⟩ := List.mem_map.mp hy
      exact (mem_reDigit _).mpr ⟨c, rfl, h c hc⟩

theorem mem_rePlus_reDigit (x : List Char) :
    x ∈ (rePlus reDigit).matches' ↔ x ≠ [] ∧ ∀ c ∈ x, isDigitC c = true := by
  rw [rePlus, RegularExpression.matches'_mul, Language.mem_mul]
  constructor
  · rintro ⟨a, ha, b, hb, rfl⟩
    obtain ⟨d, rfl, hd⟩ := (mem_reDigit a).mp ha
    refine ⟨by simp, ?_⟩
    intro c hc
    rcases List.mem_append.mp hc with h | h
    · simp only [List.mem_singleton] at h; exact h ▸ hd
    · exact (mem_star_reDigit b).mp hb c h
  · rintro ⟨hne, h⟩
    obtain ⟨d, t, rfl⟩ := List.exists_cons_of_ne_nil hne
    exact ⟨[d], (mem_reDigit _).mpr ⟨d, rfl, h d (List.mem_cons_self _ _)⟩, t,
      (mem_star_reDigit t).mpr (fun c hc => h c (List.mem_cons_of_mem _ hc)), rfl⟩

theorem mem_reOpt_char (a : Char) (x : List Char) :
    x ∈ (reOpt (.char a)).matches' ↔ x = [] ∨ x = [a] := by
  simp only [reOpt, RegularExpression.matches'_add, RegularExpression.matches'_epsilon,
    Language.mem_add, Language.mem_one, mem_char]

theorem mem_realNumberRegex (x : List Char) :
    x ∈ realNumberRegex.matches' ↔ PaymentText x := by
  unfold realNumberRegex PaymentText
  simp only [RegularExpression.matches'_mul, Language.mem_mul, mem_reOpt_char,
    mem_star_reDigit, mem_rePlus_reDigit]
  constructor
  · rintro ⟨sign, hsign, body, ⟨ip, hip, tl, ⟨dot, hdot, fp, ⟨hfp0, hfp⟩, rfl⟩, rfl⟩, rfl⟩
    refine ⟨sign, ip ++ (dot ++ fp), rfl, hsign, ?_⟩
    rcases hdot with rfl | rfl
    · left
      refine ⟨by simp [hfp0], ?_⟩
      intro c hc
      rcases List.mem_append.mp hc with h | h
      · exact hip c h
      · exact hfp c (by simpa using h)
    · right
      exact ⟨ip, fp, by simp, hip, hfp0, hfp⟩
  · rintro ⟨sign, body, rfl, hsign, hbody⟩
    refine ⟨sign, hsign, body, ?_, rfl⟩
    rcases hbody with ⟨hne, hd⟩ | ⟨ip, fp, rfl, hip, hfp0, hfp⟩
    · exact ⟨[], by simp, body, ⟨[], Or.inl rfl, body, ⟨hne, hd⟩, rfl⟩, rfl⟩
    · exact ⟨ip, hip, '.' :: fp, ⟨['.'], Or.inr rfl, fp, ⟨hfp0, hfp⟩, rfl⟩, rfl⟩

/-! ## Validators: the claims -/

/-- C3 fails as stated: `isValidInteger` accepts `" 12"`, which starts with a space
and so is not of the shape `sign digits` with nothing before it. -/
theorem isValidInteger_leading_space :
    isValidInteger " 12" 0 = (true, 12) ∧ signedDigitsShape " 12".data = false ∧
      (" 12".data.any isSpaceC) = true := by
  decide

/-- C3, amended: `isValidInteger` returns true with `out = n` exactly on text made of
leading white space (possibly none), an optional sign, one or more digits and nothing
after them, whose value `n` fits in `int`; on every other text (the empty string,
any other character, white space after the first sign or digit, a value outside
`int`) it returns false, and it never raises. -/
theorem isValidInteger_iff (s : String) (out n : Int) :
    (isValidInteger s out = (true, n) ↔ IntegerText s.data n) ∧
      ((isValidInteger s out).1 = false ↔ ¬ ∃ m, IntegerText s.data m) := by
  have key : ∀ m, isValidInteger s out = (true, m) ↔ IntegerText s.data m := by
    intro m
    constructor
    · intro h
      unfold isValidInteger stoi at h
      cases hs : strtol10 s.data with
      | none => simp [hs] at h
      | some r =>
        obtain ⟨v, pos⟩ := r
        simp only [hs] at h
        split at h
        · rename_i heq
          split at heq
          · exact absurd heq (by simp)
          · rename_i hr
            simp only [StoiResult.ok.injEq] at heq
            obtain ⟨ws, sign, ds, rest, hdata, hws, hsign, hds, hd, hv, hpos⟩ := strtol10_some hs
            split at h
            · rename_i hlen
              simp only [Prod.mk.injEq, true_and] at h
              have hl : s.length = s.data.length := rfl
              rw [← heq.2, hpos, hl, hdata] at hlen
              simp only [List.length_append] at hlen
              have hrest : rest = [] := List.eq_nil_of_length_eq_zero (by omega)
              subst hrest
              rw [not_or, not_lt, not_lt] at hr
              refine ⟨ws, sign, ds, by simpa using hdata, hws, hsign, hds, hd, ?_, ?_, ?_⟩
              · rw [← h, ← heq.1, hv]
              · rw [← h, ← heq.1]; exact hr.1
              · rw [← h, ← heq.1]; exact hr.2
            · simp at h
        · simp at h
        · simp at h
    · rintro ⟨ws, sign, ds, hdata, hws, hsign, hds, hd, hv, hlo, hhi⟩
      have h := strtol10_append ws sign ds [] hws hsign hds hd (by simp)
      rw [List.append_nil, ← hdata, ← hv] at h
      have hl : s.length = ws.length + sign.length + ds.length := by
        show s.data.length = _
        rw [hdata]; simp [Nat.add_assoc]
      unfold isValidInteger stoi
      simp only [h]
      rw [if_neg (by rw [not_or, not_lt, not_lt]; exact ⟨hlo, hhi⟩)]
      simp [hl]
  refine ⟨key n, ?_⟩
  constructor
  · rintro h ⟨m, hm⟩
    have := (key m).mpr hm
    rw [this] at h
    exact absurd h (by simp)
  · intro h
    by_contra hne
    have ht : (isValidInteger s out).1 = true := by simpa using hne
    exact h ⟨(isValidInteger s out).2, (key _).mp (Prod.ext ht rfl)⟩

/-- C2 fails as stated: `isValidMenuNumber` accepts a tab followed by `3` for
the bounds 1 and 4, although the text contains a white-space character. -/
theorem isValidMenuNumber_tab :
    isValidMenuNumber "\t3" 0 1 4 = (true, 3) ∧ ("\t3".data.any isSpaceC) = true := by
  decide

/-- C2, amended: `isValidMenuNumber` returns true only if the text contains no space
character `' '`, `isValidInteger` accepts it with value `n`, and `min ≤ n ≤ max`
(and it does return true then); in particular it returns false for every text that
contains a space, whatever its numeric content. -/
theorem isValidMenuNumber_iff (s : String) (out min max n : Int) :
    (isValidMenuNumber s out min max = (true, n) ↔
      ' ' ∉ s.data ∧ isValidInteger s out = (true, n) ∧ min ≤ n ∧ n ≤ max) ∧
    (' ' ∈ s.data → (isValidMenuNumber s out min max).1 = false) := by
  unfold isValidMenuNumber
  by_cases hsp : ' ' ∈ s.data
  · simp [hsp]
  · have hc : s.data.contains ' ' = false := by simpa using hsp
    rw [hc]
    rcases hv : isValidInteger s out with ⟨b, v⟩
    cases b
    · simp [hsp]
    · simp only [Bool.false_eq_true, if_false, Prod.mk.injEq, decide_eq_true_eq, true_and]
      refine ⟨⟨?_, ?_⟩, fun h => absurd h hsp⟩
      · rintro ⟨h, rfl⟩
        exact ⟨hsp, rfl, h⟩
      · rintro ⟨-, rfl, h⟩
        exact ⟨h, rfl⟩

/-- Witness of C2, amended: `3` is accepted for the bounds 1 and 4 through
`isValidInteger`, and `1 2`, which contains a space, is turned down. -/
theorem isValidMenuNumber_iff_witness :
    isValidMenuNumber "3" 0 1 4 = (true, 3) ∧ (isValidMenuNumber "1 2" 0 1 4).1 = false :=
  ⟨(isValidMenuNumber_iff "3" 0 1 4 3).1.mpr ⟨by decide, by decide, by decide, by decide⟩,
    (isValidMenuNumber_iff "1 2" 0 1 4 0).2 (by decide)⟩

/-- C4: `isValidPayment` returns true exactly on an optional leading `-` followed by
one or more digits, or by zero or more digits, a dot and one or more digits, and
nothing else; `12`, `12.5`, `-3.0` and `.5` are accepted, and the empty string, `-`,
`.`, `12.5.3` and `abc` are rejected. -/
theorem isValidPayment_iff :
    (∀ s : String, isValidPayment s = true ↔ PaymentText s.data) ∧
      isValidPayment "12" = true ∧ isValidPayment "12.5" = true ∧
      isValidPayment "-3.0" = true ∧ isValidPayment ".5" = true ∧
      isValidPayment "" = false ∧ isValidPayment "-" = false ∧ isValidPayment "." = false ∧
      isValidPayment "12.5.3" = false ∧ isValidPayment "abc" = false := by
  refine ⟨fun s => ?_, by decide, by decide, by decide, by decide, by decide, by decide,
    by decide, by decide, by decide⟩
  unfold isValidPayment
  rw [← mem_realNumberRegex]
  exact RegularExpression.rmatch_iff_matches' realNumberRegex s.data

/-! ## The cart -/

theorem addProductLines_found {D : Type} (p : Product D) (pre : List (CartLine D))
    (item : CartLine D) (post : List (CartLine D)) (hpre : ∀ x ∈ pre, x.1.id ≠ p.id)
    (hid : item.1.id = p.id) (hq : item.2 < INT_MAX) :
    addProductLines p (pre ++ item :: post) = .returns (pre ++ (item.1, item.2 + 1) :: post) := by
  induction pre with
  | nil => simp [addProductLines, hid, intIncr, hq]
  | cons x xs ih =>
    have hx := hpre x (List.mem_cons_self _ _)
    have := ih (fun y hy => hpre y (List.mem_cons_of_mem _ hy))
    simp [addProductLines, hx, this]

theorem addProductLines_absent {D : Type} (p : Product D) (cart : List (CartLine D))
    (h : ∀ x ∈ cart, x.1.id ≠ p.id) :
    addProductLines p cart = .returns (cart ++ [(p, 1)]) := by
  induction cart with
  | nil => rfl
  | cons x xs ih =>
    have hx := h x (List.mem_cons_self _ _)
    have := ih (fun y hy => h y (List.mem_cons_of_mem _ hy))
    simp [addProductLines, hx, this]

theorem addProductLines_returns {D : Type} (p : Product D) (cart cart' : List (CartLine D))
    (h : addProductLines p cart = .returns cart') :
    (∃ pre item post, cart = pre ++ item :: post ∧ (∀ x ∈ pre, x.1.id ≠ p.id) ∧
        item.1.id = p.id ∧ item.2 < INT_MAX ∧ cart' = pre ++ (item.1, item.2 + 1) :: post) ∨
      ((∀ x ∈ cart, x.1.id ≠ p.id) ∧ cart' = cart ++ [(p, 1)]) := by
  induction cart generalizing cart' with
  | nil =>
    right
    simp only [addProductLines, Outcome.returns.injEq] at h
    exact ⟨by simp, by simp [← h]⟩
  | cons x xs ih =>
    unfold addProductLines at h
    by_cases hx : x.1.id = p.id
    · rw [if_pos hx] at h
      left
      unfold intIncr at h
      by_cases hq : x.2 < INT_MAX
      · rw [if_pos hq] at h
        simp only [Outcome.returns.injEq] at h
        exact ⟨[], x, xs, rfl, by simp, hx, hq, by simp [← h]⟩
      · rw [if_neg hq] at h
        exact absurd h (by simp)
    · rw [if_neg hx] at h
      cases hr : addProductLines p xs with
      | returns r =>
        rw [hr] at h
        simp only [Outcome.returns.injEq] at h
        rcases ih r hr with ⟨pre, item, post, h1, h2, h3, h4, h5⟩ | ⟨h1, h2⟩
        · left
          refine ⟨x :: pre, item, post, by simp [h1], ?_, h3, h4, by simp [← h, h5]⟩
          intro y hy
          rcases List.mem_cons.mp hy with rfl | hy
          · exact hx
          · exact h2 y hy
        · right
          refine ⟨?_, by simp [← h, h2]⟩
          intro y hy
          rcases List.mem_cons.mp hy with rfl | hy
          · exact hx
          · exact h1 y hy
      | hangs => rw [hr] at h; exact absurd h (by simp)
      | throws => rw [hr] at h; exact absurd h (by simp)
      | undefined => rw [hr] at h; exact absurd h (by simp)

theorem addProduct_returns {D : Type} {cart cart' : List (CartLine D)} {p : Product D}
    {out : List (Out D)} (h : addProduct cart p = .returns (cart', out)) :
    addProductLines p cart = .returns cart' := by
  unfold addProduct at h
  cases hr : addProductLines p cart with
  | returns r =>
    rw [hr] at h
    simp only [Outcome.returns.injEq, Prod.mk.injEq] at h
    rw [h.1]
  | hangs => rw [hr] at h; exact absurd h (by simp)
  | throws => rw [hr] at h; exact absurd h (by simp)
  | undefined => rw [hr] at h; exact absurd h (by simp)

theorem nodup_addProductLines {D : Type} {cart cart' : List (CartLine D)} {p : Product D}
    (hnd : (cart.map fun item => item.1.id).Nodup)
    (h : addProductLines p cart = .returns cart') :
    (cart'.map fun item => item.1.id).Nodup := by
  rcases addProductLines_returns p cart cart' h with
    ⟨pre, item, post, rfl, -, -, -, rfl⟩ | ⟨habs, rfl⟩
  · simpa using hnd
  · rw [List.map_append, List.nodup_append]
    refine ⟨hnd, by simp, ?_⟩
    intro a ha hb
    obtain ⟨x, hx, rfl⟩ := List.mem_map.mp ha
    simp only [List.map_cons, List.map_nil, List.mem_singleton] at hb
    exact habs x hx hb

theorem quantities_addProductLines {D : Type} {cart cart' : List (CartLine D)} {p : Product D}
    (hq : ∀ item ∈ cart, 1 ≤ item.2) (h : addProductLines p cart = .returns cart') :
    ∀ item ∈ cart', 1 ≤ item.2 := by
  rcases addProductLines_returns p cart cart' h with
    ⟨pre, item, post, rfl, -, -, -, rfl⟩ | ⟨-, rfl⟩
  · intro y hy
    rcases List.mem_append.mp hy with hy | hy
    · exact hq y (List.mem_append_left _ hy)
    · rcases List.mem_cons.mp hy with rfl | hy
      · have := hq item (by simp)
        show 1 ≤ item.2 + 1
        omega
      · exact hq y (List.mem_append_right _ (List.mem_cons_of_mem _ hy))
  · intro y hy
    rcases List.mem_append.mp hy with hy | hy
    · exact hq y hy
    · simp only [List.mem_singleton] at hy
      subst hy
      exact le_refl _

theorem ids_addProductWrapped {D : Type} (p : Product D) (cart : List (CartLine D)) :
    ((addProductWrapped p cart).map fun item => item.1.id) = (cart.map fun item => item.1.id) ∨
      ((∀ x ∈ cart, x.1.id ≠ p.id) ∧
        ((addProductWrapped p cart).map fun item => item.1.id) =
          (cart.map fun item => item.1.id) ++ [p.id]) := by
  induction cart with
  | nil => right; exact ⟨by simp, rfl⟩
  | cons x xs ih =>
    unfold addProductWrapped
    by_cases hx : x.1.id = p.id
    · left; simp [hx]
    · rw [if_neg hx]
      rcases ih with h | ⟨h1, h2⟩
      · left; simp [h]
      · right
        refine ⟨?_, by simp [h2]⟩
        intro y hy
        rcases List.mem_cons.mp hy with rfl | hy
        · exact hx
        · exact h1 y hy

theorem nodup_addProductWrapped {D : Type} (p : Product D) (cart : List (CartLine D))
    (hnd : (cart.map fun item => item.1.id).Nodup) :
    ((addProductWrapped p cart).map fun item => item.1.id).Nodup := by
  rcases ids_addProductWrapped p cart with h | ⟨habs, h⟩
  · rw [h]; exact hnd
  · rw [h, List.nodup_append]
    refine ⟨hnd, by simp, ?_⟩
    intro a ha hb
    obtain ⟨x, hx, rfl⟩ := List.mem_map.mp ha
    simp only [List.mem_singleton] at hb
    exact habs x hx hb

/-- Where `addProduct` is defined by the language, the compiled program's cart is the
one the embedding returns. -/
theorem addProductWrapped_of_returns {D : Type} (p : Product D) (cart cart' : List (CartLine D))
    (h : addProductLines p cart = .returns cart') : addProductWrapped p cart = cart' := by
  induction cart generalizing cart' with
  | nil =>
    simp only [addProductLines, Outcome.returns.injEq] at h
    simp [addProductWrapped, h]
  | cons x xs ih =>
    unfold addProductLines at h
    unfold addProductWrapped
    by_cases hx : x.1.id = p.id
    · rw [if_pos hx] at h
      rw [if_pos hx]
      unfold intIncr at h
      unfold intIncrWrap
      by_cases hq : x.2 < INT_MAX
      · rw [if_pos hq] at h
        rw [if_pos hq]
        simpa using h
      · rw [if_neg hq] at h
        exact absurd h (by simp)
    · rw [if_neg hx] at h
      rw [if_neg hx]
      cases hr : addProductLines p xs with
      | returns r =>
        rw [hr] at h
        simp only [Outcome.returns.injEq] at h
        rw [ih r hr, h]
      | hangs => rw [hr] at h; exact absurd h (by simp)
      | throws => rw [hr] at h; exact absurd h (by simp)
      | undefined => rw [hr] at h; exact absurd h (by simp)

/-- Every call of `addProduct` either returns or overflows, so the two `addProduct`
steps of `CartReachable` cover every call. -/
theorem addProduct_returns_or_overflows {D : Type} (cart : List (CartLine D)) (p : Product D) :
    (∃ cart' out, addProduct cart p = .returns (cart', out)) ∨ addProduct cart p = .undefined := by
  have key : (∃ cart', addProductLines p cart = .returns cart') ∨
      addProductLines p cart = .undefined := by
    induction cart with
    | nil => exact Or.inl ⟨_, rfl⟩
    | cons x xs ih =>
      unfold addProductLines
      by_cases hx : x.1.id = p.id
      · rw [if_pos hx]
        cases intIncr x.2 with
        | none => exact Or.inr rfl
        | some q => exact Or.inl ⟨_, rfl⟩
      · rw [if_neg hx]
        rcases ih with ⟨r, hr⟩ | hr
        · rw [hr]; exact Or.inl ⟨_, rfl⟩
        · rw [hr]; exact Or.inr rfl
  unfold addProduct
  rcases key with ⟨r, hr⟩ | hr
  · rw [hr]; exact Or.inl ⟨_, _, rfl⟩
  · rw [hr]; exact Or.inr rfl

/-- Adding the same product `n + 1` times to the empty cart, within `int`, gives one
line with quantity `n + 1`. -/
theorem reachable_repeated_add {D : Type} (A : DoubleArith D) (p : Product D) (n : Nat)
    (hn : (n : Int) + 1 ≤ INT_MAX) : CartReachable A false [(p, (n : Int) + 1)] := by
  induction n with
  | zero =>
    have e : addProduct [] p =
        .returns ([(p, ((0 : Nat) : Int) + 1)], [.msg "Product added successfully!"]) := by
      simp [addProduct, addProductLines]
    exact .addProduct p .empty e
  | succ n ih =>
    have hlt : (n : Int) + 1 < INT_MAX := by
      have : ((n + 1 : Nat) : Int) = (n : Int) + 1 := by push_cast; rfl
      rw [this] at hn
      omega
    have hprev := ih (le_of_lt hlt)
    have hfound := addProductLines_found p [] (p, (n : Int) + 1) [] (by simp) rfl hlt
    have e : addProduct [(p, (n : Int) + 1)] p =
        .returns ([(p, ((n + 1 : Nat) : Int) + 1)], [.msg "Product added successfully!"]) := by
      simp only [List.nil_append] at hfound
      simp [addProduct, hfound]
    exact .addProduct p hprev e

theorem viewCart_cart {D : Type} {A : DoubleArith D} {uninit : D} {st st' : OrderState D}
    {cart cart' : List (CartLine D)} {input rest : List String} {out : List (Out D)}
    (h : viewCart A uninit st cart input = .returns (cart', st', rest, out)) :
    cart' = cart ∨ cart' = [] := by
  unfold viewCart at h
  split at h
  · simp only [Outcome.returns.injEq, Prod.mk.injEq] at h
    exact Or.inl h.1.symm
  · split at h
    · split at h
      · split at h
        · simp only [Outcome.returns.injEq, Prod.mk.injEq] at h
          exact Or.inr h.1.symm
        all_goals exact absurd h (by simp)
      · simp only [Outcome.returns.injEq, Prod.mk.injEq] at h
        exact Or.inl h.1.symm
    all_goals exact absurd h (by simp)

/-- C5 fails as stated: on a cart whose line for the product already has the
largest `int` quantity, `addProduct` does not succeed: the increment overflows. -/
theorem addProduct_at_int_max :
    addProduct [(kopiko, 2147483647)] kopiko = .undefined := by
  decide

/-- C5, amended: if some line of the cart has the product's id and the quantity of
the first such line is below `INT_MAX`, `addProduct` succeeds, that quantity is
increased by exactly one and the number of lines, their order and every other line
are unchanged; if no line has the product's id, `addProduct` succeeds and appends
the line (product, 1) at the end, leaving the existing lines unchanged.  Adding the
same product twice to an empty cart yields one line with quantity 2. -/
theorem addProduct_spec {D : Type} (cart : List (CartLine D)) (p : Product D) :
    (∀ pre item post, cart = pre ++ item :: post → (∀ x ∈ pre, x.1.id ≠ p.id) →
      item.1.id = p.id → item.2 < INT_MAX →
      addProduct cart p =
        .returns (pre ++ (item.1, item.2 + 1) :: post, [.msg "Product added successfully!"])) ∧
    ((∀ x ∈ cart, x.1.id ≠ p.id) →
      addProduct cart p = .returns (cart ++ [(p, 1)], [.msg "Product added successfully!"])) ∧
    (addProduct [] p = .returns ([(p, 1)], [.msg "Product added successfully!"]) ∧
      addProduct [(p, 1)] p = .returns ([(p, 2)], [.msg "Product added successfully!"])) := by
  refine ⟨?_, ?_, ?_, ?_⟩
  · rintro pre item post rfl hpre hid hq
    simp [addProduct, addProductLines_found p pre item post hpre hid hq]
  · intro h
    simp [addProduct, addProductLines_absent p cart h]
  · simp [addProduct, addProductLines]
  · simp [addProduct, addProductLines, intIncr, INT_MAX]

/-- Witness of C5, amended: a second Nescafé raises the second line from 2 to 3, and
a first Nescafé is appended after the Kopiko line. -/
theorem addProduct_spec_witness :
    addProduct [(kopiko, 1), (nescafe, 2)] nescafe =
        .returns ([(kopiko, 1), (nescafe, 3)], [.msg "Product added successfully!"]) ∧
      addProduct [(kopiko, 1)] nescafe =
        .returns ([(kopiko, 1), (nescafe, 1)], [.msg "Product added successfully!"]) :=
  ⟨(addProduct_spec [(kopiko, 1), (nescafe, 2)] nescafe).1 [(kopiko, 1)] (nescafe, 2) [] rfl
      (by decide) rfl (by decide),
    (addProduct_spec [(kopiko, 1)] nescafe).2.1 (by decide)⟩

/-- C6 fails as stated: 2147483647 calls of `addProduct` with the same product take
the empty cart to one line of quantity `INT_MAX`, the next call overflows, and the
cart that the program then holds has quantity -2147483648, which is below 1. -/
theorem cart_quantity_wraps :
    CartReachable exactArith true [(kopiko, -2147483648)] ∧
      ¬ CartInv [(kopiko, -2147483648)] := by
  constructor
  · have h := reachable_repeated_add exactArith kopiko 2147483646 (by decide)
    have e : addProduct [(kopiko, ((2147483646 : Nat) : Int) + 1)] kopiko = .undefined := by
      decide
    exact CartReachable.addProductOverflow kopiko h e
  · intro h
    have := h.2 (kopiko, -2147483648) (List.mem_singleton.mpr rfl)
    exact absurd this (by decide)

/-- C6, amended: in every cart state reachable from the empty cart by any sequence
of `addProduct`, `viewCart` and `clearCart`, no two lines have the same product id;
and as long as no `addProduct` of the sequence incremented a quantity of `INT_MAX`,
every quantity is at least 1. -/
theorem cartInv_of_reachable {D : Type} (A : DoubleArith D) (overflowed : Bool)
    (cart : List (CartLine D)) (h : CartReachable A overflowed cart) :
    (cart.map fun item => item.1.id).Nodup ∧ (overflowed = false → CartInv cart) := by
  induction h with
  | empty => exact ⟨List.nodup_nil, fun _ => ⟨List.nodup_nil, by simp⟩⟩
  | addProduct product _ hadd ih =>
    have hl := addProduct_returns hadd
    have hnd := nodup_addProductLines ih.1 hl
    exact ⟨hnd, fun hb => ⟨hnd, quantities_addProductLines (ih.2 hb).2 hl⟩⟩
  | addProductOverflow product _ _ ih =>
    exact ⟨nodup_addProductWrapped product _ ih.1, fun hb => absurd hb (by simp)⟩
  | viewCart uninit input _ hview ih =>
    rcases viewCart_cart hview with rfl | rfl
    · exact ih
    · exact ⟨List.nodup_nil, fun _ => ⟨List.nodup_nil, by simp⟩⟩
  | clearCart _ _ =>
    exact ⟨by simp [clearCart], fun _ => ⟨by simp [clearCart], by simp [clearCart]⟩⟩

/-- Witness of C6, amended: two Kopiko and one Nescafé are added to the empty cart,
and a declined check-out leaves the cart in the same state; no increment overflowed,
the ids are distinct and every quantity is at least 1. -/
theorem cartInv_of_reachable_witness :
    CartReachable exactArith false [(kopiko, 2), (nescafe, 1)] ∧
      (([(kopiko, 2), (nescafe, 1)] : List (CartLine ℚ)).map fun item => item.1.id).Nodup ∧
      CartInv [(kopiko, 2), (nescafe, 1)] :=
  have e1 : addProduct [] kopiko =
      .returns ([(kopiko, 1)], [.msg "Product added successfully!"]) := by decide
  have e2 : addProduct [(kopiko, 1)] kopiko =
      .returns ([(kopiko, 2)], [.msg "Product added successfully!"]) := by decide
  have e3 : addProduct [(kopiko, 2)] nescafe =
      .returns ([(kopiko, 2), (nescafe, 1)], [.msg "Product added successfully!"]) := by decide
  have e4 : viewCart exactArith 0 (OrderState.initial ℚ) [(kopiko, 2), (nescafe, 1)] ["n"] =
      .returns ([(kopiko, 2), (nescafe, 1)], OrderState.initial ℚ, [],
        [.msg "Shopping Cart:", .msg "ID   | Name             | Price   | Qty",
          .row 1 "Kopiko Lucky Day" 24 2, .row 2 "Nescafé Black" 57 1,
          .msg "Do you want to check out all the products? (Y/N): "]) := by decide
  have h4 : CartReachable exactArith false [(kopiko, 2), (nescafe, 1)] :=
    .viewCart 0 ["n"] (.addProduct nescafe (.addProduct kopiko (.addProduct kopiko .empty e1) e2) e3) e4
  have h5 := cartInv_of_reachable exactArith false _ h4
  ⟨h4, h5.1, h5.2 rfl⟩

/-! ## Payment -/

theorem processPaymentLoop_invalid {D : Type} (A : DoubleArith D) (amount paidAmount : D)
    (line : String) (rest : List String) (out : List (Out D))
    (hline : isValidPayment line = false) (hlt : A.lt paidAmount amount = false) :
    processPaymentLoop A amount paidAmount (line :: rest) out =
      .returns (out ++ [.msg "Enter payment amount: ₱",
        .msg "Invalid input. Please enter a valid amount.",
        .msg "Payment successful!", .change (A.sub paidAmount amount)], rest) := by
  simp [processPaymentLoop, hline, hlt]

theorem processPaymentLoop_accepts {D : Type} (A : DoubleArith D) (amount : D)
    (rejected : List String) (final : String) (paid : D) (rest : List String)
    (hrej : ∀ line ∈ rejected, Rejected A amount line)
    (hvalid : isValidPayment final = true) (hstod : A.stod final = some paid)
    (hpaid : A.lt paid amount = false) (paidAmount : D) (out : List (Out D))
    (hcur : A.lt paidAmount amount = true) :
    ∃ out', processPaymentLoop A amount paidAmount (rejected ++ final :: rest) out =
      .returns (out' ++ [.msg "Enter payment amount: ₱", .msg "Payment successful!",
        .change (A.sub paid amount)], rest) := by
  induction rejected generalizing paidAmount out with
  | nil => exact ⟨out, by simp [processPaymentLoop, hvalid, hstod, hpaid]⟩
  | cons line more ih =>
    have hmore : ∀ l ∈ more, Rejected A amount l := fun l hl => hrej l (List.mem_cons_of_mem _ hl)
    rcases hrej line (List.mem_cons_self _ _) with hinv | ⟨hval, v, hv, hlt⟩
    · obtain ⟨out', h⟩ := ih hmore paidAmount
        (out ++ [.msg "Enter payment amount: ₱",
          .msg "Invalid input. Please enter a valid amount."]) hcur
      exact ⟨out', by simp [processPaymentLoop, hinv, hcur, h]⟩
    · obtain ⟨out', h⟩ := ih hmore v
        (out ++ [.msg "Enter payment amount: ₱", .insufficient amount]) hlt
      exact ⟨out', by simp [processPaymentLoop, hval, hv, hlt, h]⟩

/-- C1, at the failing input: with 50 due and the first line `abc`, which fails
`isValidPayment`, the `continue` reaches the loop condition before `paidAmount` was
ever assigned; when the value it holds (here 150) is not below 50, the loop ends,
success is reported on the invalid line with change 100, and the valid line `60`
is never read.  When the first line is valid the loop does what the claim says:
with 50 due, 40 is turned down and 50 then gives change 0, and 60 gives change 10. -/
theorem processPayment_invalid_first_line :
    isValidPayment "abc" = false ∧
      processPayment exactArith 50 150 ["abc", "60"] =
        .returns ([.msg "Enter payment amount: ₱",
          .msg "Invalid input. Please enter a valid amount.",
          .msg "Payment successful!", .change 100], ["60"]) ∧
      (∀ uninit : ℚ, processPayment exactArith 50 uninit ["40", "50"] =
        .returns ([.msg "Enter payment amount: ₱", .insufficient 50,
          .msg "Enter payment amount: ₱", .msg "Payment successful!", .change 0], [])) ∧
      (∀ uninit : ℚ, processPayment exactArith 50 uninit ["60"] =
        .returns ([.msg "Enter payment amount: ₱", .msg "Payment successful!",
          .change 10], [])) := by
  have h40 : isValidPayment "40" = true ∧ exactArith.stod "40" = some 40 := by decide!
  have h50 : isValidPayment "50" = true ∧ exactArith.stod "50" = some 50 := by decide!
  have h60 : isValidPayment "60" = true ∧ exactArith.stod "60" = some 60 := by decide!
  have l40 : exactArith.lt 40 50 = true := by decide
  have l50 : exactArith.lt 50 50 = false := by decide
  have l60 : exactArith.lt 60 50 = false := by decide
  have s50 : exactArith.sub 50 50 = (0 : ℚ) := by norm_num [exactArith]
  have s60 : exactArith.sub 60 50 = (10 : ℚ) := by norm_num [exactArith]
  have s150 : exactArith.sub 150 50 = (100 : ℚ) := by norm_num [exactArith]
  refine ⟨by decide, ?_, ?_, ?_⟩
  · have h := processPaymentLoop_invalid exactArith 50 150 "abc" ["60"] [] (by decide) (by decide)
    rw [s150] at h
    exact h
  · intro uninit
    simp [processPayment, processPaymentLoop, h40, h50, l40, l50, s50]
  · intro uninit
    simp [processPayment, processPaymentLoop, h60, l60, s60]

/-! ## Orders -/

/-- C9: `processOrder` on an empty list returns at once: the state of `Order` (history
and identifier counter) is unchanged, no line of input is consumed, and the only
output is the notice, so `processPayment` is not run; a following order therefore
behaves exactly as it would have without the call. -/
theorem processOrder_empty {D : Type} (A : DoubleArith D) (uninit : D) (st : OrderState D)
    (input : List String) :
    processOrder A uninit st [] input = .returns (st, input, [.msg "No items to checkout."]) ∧
      ∀ (uninit' : D) (items : List (CartLine D)),
        (match processOrder A uninit st [] input with
          | .returns (st', input', _) => processOrder A uninit' st' items input'
          | .hangs => .hangs
          | .throws => .throws
          | .undefined => .undefined) = processOrder A uninit' st items input := by
  have h : processOrder A uninit st [] input =
      .returns (st, input, [.msg "No items to checkout."]) := by
    simp [processOrder]
  refine ⟨h, ?_⟩
  intro uninit' items
  rw [h]

/-- C7, at the failing input: a cart with one Kopiko, the confirmation `y`, then the
payment line `hugeAmount`, then `150`.  `isValidPayment` accepts `hugeAmount`, `stod`
throws `std::out_of_range` on it, nothing catches the exception, and `viewCart`
never returns: the cart is not cleared and no order is recorded. -/
theorem viewCart_payment_out_of_range :
    isValidPayment hugeAmount = true ∧
      viewCart exactArith 0 (OrderState.initial ℚ) [(kopiko, 1)] ["y", hugeAmount, "150"] =
        .throws := by
  decide!

/-! ## Totals -/

theorem itemsLoop_eq {D : Type} (A : DoubleArith D) (items : List (CartLine D)) (total : D)
    (out : List (Out D)) :
    itemsLoop A items total out = ((lineAmounts A items).foldl A.add total, out ++ rowsOf items) := by
  induction items generalizing total out with
  | nil => simp [itemsLoop, lineAmounts, rowsOf]
  | cons item rest ih =>
    rw [itemsLoop, ih]
    simp [lineAmounts, rowsOf]

theorem processOrder_returns {D : Type} {A : DoubleArith D} {uninit : D} {st st' : OrderState D}
    {items : List (CartLine D)} {input rest : List String} {out : List (Out D)}
    (hne : items ≠ []) (h : processOrder A uninit st items input = .returns (st', rest, out)) :
    st' = ⟨st.orderHistory ++ [items], st.orderId + 1⟩ ∧
      ∃ payOut, processPayment A (sumOfLines A items) uninit input = .returns (payOut, rest) ∧
        out = [.orderId st.orderId, .msg "Order Details:",
            .msg "ID   | Name             | Price   | Qty"] ++ rowsOf items ++
          [.total (sumOfLines A items)] ++ payOut ++
          [.msg "You have successfully checked out the products!"] := by
  unfold processOrder at h
  have he : items.isEmpty = false := by
    cases items with
    | nil => exact absurd rfl hne
    | cons _ _ => rfl
  rw [he] at h
  simp only [Bool.false_eq_true, if_false, itemsLoop_eq] at h
  unfold intIncr at h
  by_cases hid : st.orderId < INT_MAX
  · rw [if_pos hid] at h
    simp only at h
    cases hp : processPayment A (List.foldl A.add A.zero (lineAmounts A items)) uninit input with
    | returns r =>
      obtain ⟨payOut, rest0⟩ := r
      rw [hp] at h
      simp only [Outcome.returns.injEq, Prod.mk.injEq] at h
      obtain ⟨h1, h2, h3⟩ := h
      subst h2
      exact ⟨h1.symm, payOut, hp, by rw [← h3]; simp [sumOfLines]⟩
    | hangs => rw [hp] at h; exact absurd h (by simp)
    | throws => rw [hp] at h; exact absurd h (by simp)
    | undefined => rw [hp] at h; exact absurd h (by simp)
  · rw [if_neg hid] at h
    exact absurd h (by simp)

theorem processPaymentLoop_returns {D : Type} (A : DoubleArith D) (amount : D)
    (rejected : List String) (final : String) (paid : D) (rest : List String)
    (hrej : ∀ line ∈ rejected, Rejected A amount line)
    (hvalid : isValidPayment final = true) (hstod : A.stod final = some paid)
    (hpaid : A.lt paid amount = false) (paidAmount : D) (out : List (Out D)) :
    ∃ out' rest', processPaymentLoop A amount paidAmount (rejected ++ final :: rest) out =
      .returns (out', rest') := by
  induction rejected generalizing paidAmount out with
  | nil =>
    exact ⟨out ++ [.msg "Enter payment amount: ₱", .msg "Payment successful!",
      .change (A.sub paid amount)], rest, by simp [processPaymentLoop, hvalid, hstod, hpaid]⟩
  | cons line more ih =>
    have hmore : ∀ l ∈ more, Rejected A amount l := fun l hl => hrej l (List.mem_cons_of_mem _ hl)
    rcases hrej line (List.mem_cons_self _ _) with hinv | ⟨hval, v, hv, hlt⟩
    · cases hcur : A.lt paidAmount amount with
      | true =>
        obtain ⟨out', rest', h⟩ := ih hmore paidAmount
          (out ++ [.msg "Enter payment amount: ₱",
            .msg "Invalid input. Please enter a valid amount."])
        exact ⟨out', rest', by simp [processPaymentLoop, hinv, hcur, h]⟩
      | false => exact ⟨_, _, processPaymentLoop_invalid A amount paidAmount line _ out hinv hcur⟩
    · obtain ⟨out', rest', h⟩ := ih hmore v
        (out ++ [.msg "Enter payment amount: ₱", .insufficient amount])
      exact ⟨out', rest', by simp [processPaymentLoop, hval, hv, hlt, h]⟩

theorem askCheckout_accepts {D : Type} (invalid : List String) (answer : String)
    (rest : List String) (hinv : ∀ line ∈ invalid, isValidChoice line = false)
    (hans : isValidChoice answer = true) (out : List (Out D)) :
    ∃ out', askCheckout (invalid ++ answer :: rest) out = .returns (answer, rest, out') := by
  induction invalid generalizing out with
  | nil =>
    exact ⟨out ++ [.msg "Do you want to check out all the products? (Y/N): "],
      by simp [askCheckout, hans]⟩
  | cons line more ih =>
    have h1 := hinv line (List.mem_cons_self _ _)
    obtain ⟨out', h⟩ := ih (fun l hl => hinv l (List.mem_cons_of_mem _ hl))
      (out ++ [.msg "Do you want to check out all the products? (Y/N): ",
        .msg "Invalid input. Please enter 'Y' or 'N' only."])
    exact ⟨out', by simp [askCheckout, h1, h]⟩

/-- What `viewCart` does on the runs in which no payment line makes `stod` throw and
the order identifier can still be incremented: after invalid answers and a `y` or
`Y`, payment lines that are turned down and one that is valid and sufficient, it
returns with the cart empty and the cart's former lines appended to the history. -/
theorem viewCart_checkout {D : Type} (A : DoubleArith D) (uninit : D) (st : OrderState D)
    (cart : List (CartLine D)) (invalid : List String) (answer : String)
    (rejected : List String) (final : String) (paid : D) (rest : List String)
    (hcart : cart ≠ []) (hid : st.orderId < INT_MAX)
    (hinv : ∀ line ∈ invalid, isValidChoice line = false)
    (hans : answer = "y" ∨ answer = "Y")
    (hrej : ∀ line ∈ rejected, Rejected A (sumOfLines A cart) line)
    (hvalid : isValidPayment final = true) (hstod : A.stod final = some paid)
    (hpaid : A.lt paid (sumOfLines A cart) = false) :
    ∃ rest' out, viewCart A uninit st cart (invalid ++ answer :: (rejected ++ final :: rest)) =
      .returns ([], ⟨st.orderHistory ++ [cart], st.orderId + 1⟩, rest', out) := by
  have hchoice : isValidChoice answer = true := by rcases hans with rfl | rfl <;> decide
  have hyes : (answer == "Y" || answer == "y") = true := by rcases hans with rfl | rfl <;> decide
  obtain ⟨askOut, hask⟩ := askCheckout_accepts invalid answer (rejected ++ final :: rest) hinv hchoice
    ((Out.msg "Shopping Cart:" :: Out.msg "ID   | Name             | Price   | Qty" ::
      cart.map fun item => Out.row item.1.id item.1.name item.1.price item.2))
  obtain ⟨payOut, rest', hpay⟩ := processPaymentLoop_returns A (sumOfLines A cart) rejected final
    paid rest hrej hvalid hstod hpaid uninit []
  have he : cart.isEmpty = false := by
    cases cart with
    | nil => exact absurd rfl hcart
    | cons _ _ => rfl
  have hord : processOrder A uninit st cart (rejected ++ final :: rest) =
      .returns (⟨st.orderHistory ++ [cart], st.orderId + 1⟩, rest',
        (itemsLoop A cart A.zero [.orderId st.orderId, .msg "Order Details:",
            .msg "ID   | Name             | Price   | Qty"]).2 ++
          [.total (sumOfLines A cart)] ++ payOut ++
          [.msg "You have successfully checked out the products!"]) := by
    unfold processOrder
    rw [he]
    have hp : processPayment A (itemsLoop A cart A.zero [.orderId st.orderId,
        .msg "Order Details:", .msg "ID   | Name             | Price   | Qty"]).1 uninit
        (rejected ++ final :: rest) = .returns (payOut, rest') := by
      rw [itemsLoop_eq]; exact hpay
    simp only [Bool.false_eq_true, if_false, intIncr, if_pos hid, hp]
    rw [itemsLoop_eq]
    rfl
  refine ⟨rest', askOut ++ ((itemsLoop A cart A.zero [.orderId st.orderId, .msg "Order Details:",
      .msg "ID   | Name             | Price   | Qty"]).2 ++
    [.total (sumOfLines A cart)] ++ payOut ++
    [.msg "You have successfully checked out the products!"]), ?_⟩
  unfold viewCart
  rw [he]
  simp only [Bool.false_eq_true, if_false, hask, hyes, if_true, hord]
  rfl

/-! ## The menu loop -/

theorem processPaymentLoop_rest {D : Type} (A : DoubleArith D) (amount : D) (input : List String)
    (paidAmount : D) (out out' : List (Out D)) (rest : List String)
    (h : processPaymentLoop A amount paidAmount input out = .returns (out', rest)) :
    rest.length ≤ input.length := by
  induction input generalizing paidAmount out with
  | nil =>
    unfold processPaymentLoop at h
    split at h
    · exact absurd h (by simp)
    · simp only [Outcome.returns.injEq, Prod.mk.injEq] at h
      rw [← h.2]
  | cons line more ih =>
    unfold processPaymentLoop at h
    split at h
    · split at h
      · exact Nat.le_succ_of_le (ih _ _ h)
      · simp only [Outcome.returns.injEq, Prod.mk.injEq] at h
        rw [← h.2]; exact Nat.le_succ _
    · split at h
      · exact absurd h (by simp)
      · split at h
        · exact Nat.le_succ_of_le (ih _ _ h)
        · simp only [Outcome.returns.injEq, Prod.mk.injEq] at h
          rw [← h.2]; exact Nat.le_succ _

theorem processOrder_rest {D : Type} {A : DoubleArith D} {uninit : D} {st st' : OrderState D}
    {items : List (CartLine D)} {input rest : List String} {out : List (Out D)}
    (h : processOrder A uninit st items input = .returns (st', rest, out)) :
    rest.length ≤ input.length := by
  by_cases hne : items = []
  · subst hne
    simp only [processOrder, List.isEmpty_nil, if_true, Outcome.returns.injEq,
      Prod.mk.injEq] at h
    rw [← h.2.1]
  · obtain ⟨-, payOut, hp, -⟩ := processOrder_returns hne h
    exact processPaymentLoop_rest A _ _ _ _ _ _ hp

theorem askCheckout_rest {D : Type} (input : List String) (out out' : List (Out D))
    (choice : String) (rest : List String)
    (h : askCheckout input out = .returns (choice, rest, out')) :
    rest.length ≤ input.length := by
  induction input generalizing out with
  | nil => exact absurd h (by simp [askCheckout])
  | cons line more ih =>
    unfold askCheckout at h
    split at h
    · exact Nat.le_succ_of_le (ih _ h)
    · simp only [Outcome.returns.injEq, Prod.mk.injEq] at h
      rw [← h.2.1]; exact Nat.le_succ _

theorem viewCart_rest {D : Type} {A : DoubleArith D} {uninit : D} {st st' : OrderState D}
    {cart cart' : List (CartLine D)} {input rest : List String} {out : List (Out D)}
    (h : viewCart A uninit st cart input = .returns (cart', st', rest, out)) :
    rest.length ≤ input.length := by
  unfold viewCart at h
  split at h
  · simp only [Outcome.returns.injEq, Prod.mk.injEq] at h
    rw [← h.2.2.1]
  · split at h
    · rename_i hask
      have h1 := askCheckout_rest _ _ _ _ _ hask
      split at h
      · split at h
        · rename_i hord
          have h2 := processOrder_rest hord
          simp only [Outcome.returns.injEq, Prod.mk.injEq] at h
          rw [← h.2.2.1]; omega
        all_goals exact absurd h (by simp)
      · simp only [Outcome.returns.injEq, Prod.mk.injEq] at h
        rw [← h.2.2.1]; exact h1
    all_goals exact absurd h (by simp)

theorem addProductsLoop_rest {D : Type} (catalogue : List (Product D)) (input : List String)
    (askMore : Bool) (cart cart' : List (CartLine D)) (out out' : List (Out D))
    (rest : List String)
    (h : addProductsLoop catalogue askMore cart input out = .returns (cart', rest, out')) :
    rest.length ≤ input.length := by
  induction input generalizing askMore cart out with
  | nil => cases askMore <;> exact absurd h (by simp [addProductsLoop])
  | cons line more ih =>
    cases askMore with
    | false =>
      unfold addProductsLoop at h
      split at h
      · split at h
        · split at h
          · exact Nat.le_succ_of_le (ih _ _ _ h)
          all_goals exact absurd h (by simp)
        · exact Nat.le_succ_of_le (ih _ _ _ h)
      · exact Nat.le_succ_of_le (ih _ _ _ h)
    | true =>
      unfold addProductsLoop at h
      split at h
      · exact Nat.le_succ_of_le (ih _ _ _ h)
      · split at h
        · exact Nat.le_succ_of_le (ih _ _ _ h)
        · simp only [Outcome.returns.injEq, Prod.mk.injEq] at h
          rw [← h.2.1]; exact Nat.le_succ _

theorem menuBody_rest {D : Type} {A : DoubleArith D} {uninit : Nat → D} {s s' : Session D}
    {choice : String} {input rest : List String} {out : List (Out D)}
    (h : menuBody A uninit s choice input = .returns (s', rest, out)) :
    rest.length ≤ input.length := by
  unfold menuBody at h
  split at h
  · split at h
    · split at h
      · rename_i hadd
        have := addProductsLoop_rest _ _ _ _ _ _ _ _ hadd
        simp only [Outcome.returns.injEq, Prod.mk.injEq] at h
        rw [← h.2.1]; exact this
      all_goals exact absurd h (by simp)
    · split at h
      · split at h
        · rename_i hview
          have := viewCart_rest hview
          simp only [Outcome.returns.injEq, Prod.mk.injEq] at h
          rw [← h.2.1]; exact this
        all_goals exact absurd h (by simp)
      · split at h
        · split at h
          · simp only [Outcome.returns.injEq, Prod.mk.injEq] at h
            rw [← h.2.1]
          all_goals exact absurd h (by simp)
        · split at h
          · simp only [Outcome.returns.injEq, Prod.mk.injEq] at h
            rw [← h.2.1]
          · simp only [Outcome.returns.injEq, Prod.mk.injEq] at h
            rw [← h.2.1]
  · simp only [Outcome.returns.injEq, Prod.mk.injEq] at h
    rw [← h.2.1]

/-- The bound on the number of passes in `main` is never reached: any larger bound
gives the same run. -/
theorem mainLoop_passes {D : Type} (A : DoubleArith D) (uninit : Nat → D) (n m : Nat)
    (s : Session D) (input : List String) (out : List (Out D))
    (hn : input.length < n) (hm : input.length < m) :
    mainLoop A uninit n s input out = mainLoop A uninit m s input out := by
  induction n generalizing m s input out with
  | zero => exact absurd hn (Nat.not_lt_zero _)
  | succ n ih =>
    cases m with
    | zero => exact absurd hm (Nat.not_lt_zero _)
    | succ m =>
      cases input with
      | nil => simp [mainLoop]
      | cons choice rest =>
        unfold mainLoop
        cases hb : menuBody A uninit s choice rest with
        | returns r =>
          obtain ⟨s', rest', bodyOut⟩ := r
          have hr := menuBody_rest hb
          simp only [List.length_cons] at hn hm
          simp only
          split
          · exact ih m s' rest' _ (by omega) (by omega)
          · rfl
        | hangs => rfl
        | throws => rfl
        | undefined => rfl

/-- C10, at the failing input: the line `04` is accepted by `isValidMenuNumber` with
the bounds 1 and 4 and the value 4, and the farewell message is printed, but the loop
condition compares the text with `"4"`, so the menu runs again: on the input `04`,
`4` the menu and the farewell are printed twice before `main` returns. -/
theorem menu_option_four_keeps_running :
    isValidMenuNumber "04" 0 1 4 = (true, 4) ∧
      main exactArith (fun _ => 0) ["04", "4"] =
        .returns (⟨[], OrderState.initial ℚ⟩, [],
          menuText ++ [.msg "Thank you for shopping with us!"] ++
            menuText ++ [.msg "Thank you for shopping with us!"]) := by
  decide

end SariSari
